import Mathlib

/-!
Verification of the ledger-report resolution core.

This file shallowly embeds the two hooks of the repository that the
specification covers:

* `useWalletBalance` — the temporal block resolver
  (`findBlockByTimestamp`, its binary-search loop, its localStorage cache)
  and the balance fetcher `fetchBalance`;
* `useCurrencyPrice` — the historical price resolver `fetchPrice` with its
  FPS special case and CoinGecko fallback chain.

Conventions of the embedding:

* JavaScript numbers that hold integers (block numbers, Unix timestamps)
  are `Int`; `Math.floor((low + high) / 2)` is `Int` division, which is
  floor division in Lean.
* JavaScript price values are modelled as `ℚ` (exact arithmetic; the
  claims settled here do not depend on binary floating-point rounding).
* `async` functions that can `throw` become functions into `Except String`;
  a rejected `fetch`/RPC call is an `Except.error` supplied by the
  environment.
* `localStorage` is an association list `List (String × String)` where
  `setItem` conses (newest binding first) and `getItem` takes the first
  binding, modelling overwrite / last-write-wins.
* `NaN` results of `parseInt` are modelled by `Option`: `none` is `NaN`.
-/

/-! ## The localStorage cache -/

/-- `localStorage` contents: newest binding first. -/
abbrev Cache := List (String × String)

/-- `localStorage.getItem(k)`: `none` models `null`. -/
def lsGetItem (c : Cache) (k : String) : Option String :=
  c.lookup k

/-- `localStorage.setItem(k, v)`: later writes shadow earlier ones. -/
def lsSetItem (c : Cache) (k v : String) : Cache :=
  (k, v) :: c

/-! ## Decimal string encoding (`Number.prototype.toString` / `parseInt(s, 10)`)

`bestBlock.toString()` renders a nonnegative integer as its decimal digit
string; `parseInt(cached, 10)` reads an optional sign and the longest
leading run of decimal digits, giving `NaN` (here `none`) when that run is
empty.  Leading-whitespace trimming of `parseInt` is not modelled: every
string written to the block cache is a `toString` image. -/

/-- The character for a single decimal digit `d < 10`. -/
def digitChar (d : Nat) : Char := Char.ofNat (48 + d)

/-- Decimal rendering of a natural number, as `Number.prototype.toString`
produces for a nonnegative integer. -/
def natToString (n : Nat) : String :=
  if n = 0 then "0" else ⟨((Nat.digits 10 n).map digitChar).reverse⟩

/-- Decimal rendering of an integer (`toString` of a JS integer). -/
def intToString (i : Int) : String :=
  if i < 0 then "-" ++ natToString i.natAbs else natToString i.toNat

/-- The numeric value of a decimal digit character, `none` otherwise. -/
def charDigit (c : Char) : Option Nat :=
  if 48 ≤ c.toNat ∧ c.toNat ≤ 57 then some (c.toNat - 48) else none

/-- The longest leading run of decimal digits of a character list. -/
def takeDigits : List Char → List Nat
  | [] => []
  | c :: cs =>
    match charDigit c with
    | some d => d :: takeDigits cs
    | none => []

/-- Value of a big-endian digit list. -/
def decValue (ds : List Nat) : Nat :=
  ds.foldl (fun a d => 10 * a + d) 0

/-- `parseInt(s, 10)`: optional sign, then the longest leading digit run;
`none` models `NaN`. -/
def parseIntDec (s : String) : Option Int :=
  match s.data with
  | [] => none
  | c :: cs =>
    if c = '-' then
      if takeDigits cs = [] then none else some (-(decValue (takeDigits cs) : Int))
    else
      if takeDigits (c :: cs) = [] then none else some (decValue (takeDigits (c :: cs)))

/-! ## Chains and cache keys -/

/-- The `EvmBlockchain` enum of `src/types.ts`. -/
inductive EvmBlockchain
  | ETH | BSC | OPT | ARB | POLYGON | BASE | HAQQ | GNOSIS
deriving DecidableEq, Repr

/-- The string value of each `EvmBlockchain` enum member. -/
def chainName : EvmBlockchain → String
  | .ETH => "Ethereum"
  | .BSC => "BinanceSmartChain"
  | .OPT => "Optimism"
  | .ARB => "Arbitrum"
  | .POLYGON => "Polygon"
  | .BASE => "Base"
  | .HAQQ => "Haqq"
  | .GNOSIS => "Gnosis"

/-- The block-resolver cache key: `` `block-${blockchain}-${targetTimestamp}` ``. -/
def blockCacheKey (blockchain : EvmBlockchain) (targetTimestamp : Int) : String :=
  "block-" ++ chainName blockchain ++ "-" ++ intToString targetTimestamp

/-! ## The block timestamp oracle

`getCurrentBlockNumber` and `getBlockTimestamp` each perform one RPC
round-trip and either throw or return a (non-`NaN`, by their own `isNaN`
guards) number. -/

/-- One chain's RPC oracle as seen through the two helper functions. -/
structure Oracle where
  /-- Outcome of `getCurrentBlockNumber`. -/
  height : Except String Int
  /-- Outcome of `getBlockTimestamp` for each block number. -/
  ts : Int → Except String Int

/-! ## The binary-search loop of `findBlockByTimestamp`

```
let low = 1; let high = currentBlock; let bestBlock = high;
while (low <= high) {
  const mid = Math.floor((low + high) / 2);
  const blockTimestamp = await getBlockTimestamp(blockchain, mid);
  if (blockTimestamp <= targetTimestamp) { bestBlock = mid; low = mid + 1; }
  else { high = mid - 1; }
}
```

The loop returns the final `bestBlock` (or the first probe error) paired
with the number of `getBlockTimestamp` probes it issued. -/

def searchLoop (O : Oracle) (target : Int) (low high best : Int) :
    Except String Int × Nat :=
  if low ≤ high then
    let mid := (low + high) / 2
    match O.ts mid with
    | .error e => (.error e, 1)
    | .ok bts =>
      if bts ≤ target then
        let r := searchLoop O target (mid + 1) high mid
        (r.1, r.2 + 1)
      else
        let r := searchLoop O target low (mid - 1) best
        (r.1, r.2 + 1)
  else (.ok best, 0)
termination_by (high + 1 - low).toNat
decreasing_by
  all_goals omega

/-! ## `findBlockByTimestamp` -/

/-- The early-return test of the cache-hit path:
`if (cached) { const parsed = parseInt(cached, 10); if (!isNaN(parsed)) return parsed; }`.
`some s` with `s` empty is falsy; a `NaN` parse falls through to the search. -/
def cachedBlock (c : Cache) (key : String) : Option Int :=
  match lsGetItem c key with
  | none => none
  | some s => if s = "" then none else parseIntDec s

/-- Everything one call of `findBlockByTimestamp` produces: its
return-or-throw, the updated `localStorage`, and how many RPC calls of each
kind it issued. -/
structure FindOutcome where
  res : Except String Int
  cache : Cache
  heightCalls : Nat
  probes : Nat
deriving Repr

/-- `findBlockByTimestamp(blockchain, targetTimestamp)` of
`useWalletBalance`: cache lookup, then `getCurrentBlockNumber` with the
`currentBlock <= 0` guard, then the binary search, then the cache write. -/
def findBlockByTimestamp (O : Oracle) (c : Cache) (blockchain : EvmBlockchain)
    (targetTimestamp : Int) : FindOutcome :=
  let cacheKey := blockCacheKey blockchain targetTimestamp
  match cachedBlock c cacheKey with
  | some parsed => ⟨.ok parsed, c, 0, 0⟩
  | none =>
    match O.height with
    | .error e => ⟨.error e, c, 1, 0⟩
    | .ok currentBlock =>
      if currentBlock ≤ 0 then
        ⟨.error ("Invalid current block number for " ++ chainName blockchain), c, 1, 0⟩
      else
        let r := searchLoop O targetTimestamp 1 currentBlock currentBlock
        match r.1 with
        | .error e => ⟨.error e, c, 1, r.2⟩
        | .ok bestBlock =>
          ⟨.ok bestBlock, lsSetItem c cacheKey (intToString bestBlock), 1, r.2⟩

/-! ## The historical price resolver (`useCurrencyPrice`)

Prices are `ℚ`; an HTTP round-trip is an `Except` (rejected fetch) of a
response with an `ok` flag and a `json` body that may itself fail to parse.
`JSON.stringify`/`JSON.parse` of a price record round-trip exactly, so the
price entries of `localStorage` are modelled structurally as a
`String → PriceData` association list. -/

/-- The `PriceData` record `{ usd, eur, chf }`. -/
structure PriceData where
  usd : ℚ
  eur : ℚ
  chf : ℚ
deriving DecidableEq, Repr

/-- The hook's `CurrencyPriceResult` state. -/
structure CurrencyPriceResult where
  prices : Option PriceData
  loading : Bool
  error : Option String
deriving DecidableEq, Repr

/-- An HTTP response: its `ok` flag and the outcome of `.json()`. -/
structure HttpResp (β : Type) where
  ok : Bool
  json : Except String β

/-- Parsed forex body: `forexData.usd?.chf` and `forexData.eur?.chf`. -/
structure ForexBody where
  usd_chf : Option ℚ
  eur_chf : Option ℚ

/-- A provider price record whose currency fields may each be absent. -/
structure CgPriceFields where
  usd : Option ℚ
  eur : Option ℚ
  chf : Option ℚ

/-- CoinGecko `/history` body: `data.market_data?.current_price`
(`none` covers both a missing `market_data` and a missing `current_price`). -/
structure CgHistoryBody where
  current_price : Option CgPriceFields

/-- CoinGecko `/simple/token_price` body:
`currentData[contractAddress.toLowerCase()]`. -/
structure CgCurrentBody where
  tokenData : Option CgPriceFields

/-- Every external outcome one `fetchPrice` call can observe. -/
structure PriceEnv where
  /-- Outcome of `await fpsContract.price()` (a `uint256`). -/
  fpsPriceRaw : Except String Nat
  /-- The forex-rates round-trip. -/
  forexFetch : Except String (HttpResp ForexBody)
  /-- The `/coins/.../history?date=...` round-trip. -/
  historyFetch : Except String (HttpResp CgHistoryBody)
  /-- The `/simple/token_price/...` round-trip. -/
  currentFetch : Except String (HttpResp CgCurrentBody)

/-- The price entries of `localStorage`, newest first. -/
abbrev PriceCache := List (String × PriceData)

/-- Price-cache read (`localStorage.getItem` + `JSON.parse`). -/
def pcGet (c : PriceCache) (k : String) : Option PriceData :=
  c.lookup k

/-- Price-cache write (`JSON.stringify` + `localStorage.setItem`). -/
def pcSet (c : PriceCache) (k : String) (v : PriceData) : PriceCache :=
  (k, v) :: c

/-- The `platformMap` record of `useCurrencyPrice` (no entry for `"Haqq"`). -/
def platformMap (blockchain : String) : Option String :=
  if blockchain = "Ethereum" then some "ethereum"
  else if blockchain = "BinanceSmartChain" then some "binance-smart-chain"
  else if blockchain = "Polygon" then some "polygon-pos"
  else if blockchain = "Arbitrum" then some "arbitrum-one"
  else if blockchain = "Optimism" then some "optimistic-ethereum"
  else if blockchain = "Base" then some "base"
  else if blockchain = "Gnosis" then some "xdai"
  else none

/-- The hard-coded FPS contract address. -/
def fpsAddress : String := "0x1ba26788dfde592fec8bcb0eaff472a42be341b2"

/-- `String.prototype.toLowerCase()` on the ASCII contract addresses used
here: lower-case each character. -/
def toLowerCase (s : String) : String := ⟨s.data.map Char.toLower⟩

/-- `if (forexData.usd?.chf) usdRate = 1 / forexData.usd.chf`:
an absent or `0` (falsy) field keeps the hard-coded fallback rate. -/
def jsRate (x : Option ℚ) (fallback : ℚ) : ℚ :=
  match x with
  | some r => if r = 0 then fallback else 1 / r
  | none => fallback

/-- `error.message || "Failed to fetch currency prices"`. -/
def priceErrMsg (e : String) : String :=
  if e = "" then "Failed to fetch currency prices" else e

/-- What one `fetchPrice` call produces: the returned promise
(`.error` = rejected, since the `catch` block re-throws), the hook state
written by the last `setResult`, and the updated price cache. -/
structure PriceOutcome where
  res : Except String PriceData
  state : CurrencyPriceResult
  cache : PriceCache
deriving Repr

/-- The `catch` block of `fetchPrice`: record the error state, re-throw. -/
def priceThrow (c : PriceCache) (e : String) : PriceOutcome :=
  ⟨.error e, ⟨none, false, some (priceErrMsg e)⟩, c⟩

/-- `fetchPrice({ contractAddress, blockchain, date })` of
`useCurrencyPrice`; `formattedDate` is `formatDate(date)` (the `DD-MM-YYYY`
rendering of the requested date, computed identically for the cache key and
the history URL). -/
def fetchPrice (env : PriceEnv) (c : PriceCache) (contractAddress : String)
    (blockchain : EvmBlockchain) (formattedDate : String) : PriceOutcome :=
  if toLowerCase contractAddress = fpsAddress ∧ chainName blockchain = "Ethereum" then
    -- Special handling for FPS token
    let cacheKey := "price-fps-" ++ formattedDate
    match pcGet c cacheKey with
    | some cachedData => ⟨.ok cachedData, ⟨some cachedData, false, none⟩, c⟩
    | none =>
      match env.fpsPriceRaw with
      | .error e => priceThrow c e
      | .ok priceRaw =>
        let fpsPriceInChf : ℚ := (priceRaw : ℚ) / 10 ^ 18
        match env.forexFetch with
        | .error e => priceThrow c e
        | .ok forexResponse =>
          if forexResponse.ok then
            match forexResponse.json with
            | .error e => priceThrow c e
            | .ok forexData =>
              let usdRate := jsRate forexData.usd_chf (11 / 10)
              let eurRate := jsRate forexData.eur_chf (103 / 100)
              let priceData : PriceData :=
                ⟨fpsPriceInChf * usdRate, fpsPriceInChf * eurRate, fpsPriceInChf⟩
              ⟨.ok priceData, ⟨some priceData, false, none⟩, pcSet c cacheKey priceData⟩
          else
            let priceData : PriceData :=
              ⟨fpsPriceInChf * (11 / 10), fpsPriceInChf * (103 / 100), fpsPriceInChf⟩
            ⟨.ok priceData, ⟨some priceData, false, none⟩, pcSet c cacheKey priceData⟩
  else
    -- Original CoinGecko logic for other tokens
    match platformMap (chainName blockchain) with
    | none => priceThrow c ("[CoinGecko] Unsupported blockchain: " ++ chainName blockchain)
    | some _platform =>
      let cacheKey := "price-" ++ contractAddress ++ "-" ++ formattedDate
      match pcGet c cacheKey with
      | some cachedData => ⟨.ok cachedData, ⟨some cachedData, false, none⟩, c⟩
      | none =>
        match env.historyFetch with
        | .error e => priceThrow c e
        | .ok response =>
          if !response.ok then
            match env.currentFetch with
            | .error e => priceThrow c e
            | .ok currentResponse =>
              if !currentResponse.ok then priceThrow c "Failed to fetch price data"
              else
                match currentResponse.json with
                | .error e => priceThrow c e
                | .ok currentData =>
                  match currentData.tokenData with
                  | none => priceThrow c "Token price not found"
                  | some tokenData =>
                    let priceData : PriceData :=
                      ⟨tokenData.usd.getD 0, tokenData.eur.getD 0, tokenData.chf.getD 0⟩
                    ⟨.ok priceData, ⟨some priceData, false, none⟩, pcSet c cacheKey priceData⟩
          else
            match response.json with
            | .error e => priceThrow c e
            | .ok data =>
              match data.current_price with
              | none => priceThrow c "Historical price data not available"
              | some cp =>
                let priceData : PriceData :=
                  ⟨cp.usd.getD 0, cp.eur.getD 0, cp.chf.getD 0⟩
                ⟨.ok priceData, ⟨some priceData, false, none⟩, pcSet c cacheKey priceData⟩

/-! ## `fetchBalance` of `useWalletBalance`

The balance string itself (`ethers.formatUnits` + `parseFloat(..).toFixed(6)`)
is produced by binary floating-point in the source; it is modelled below with
exact integer arithmetic (truncation in place of float rounding) — the claims
settled against `fetchBalance` concern its control flow and error handling,
not the rendered digits. -/

/-- Value of one hexadecimal digit character. -/
def hexDigit (c : Char) : Option Nat :=
  if 48 ≤ c.toNat ∧ c.toNat ≤ 57 then some (c.toNat - 48)
  else if 97 ≤ c.toNat ∧ c.toNat ≤ 102 then some (c.toNat - 87)
  else if 65 ≤ c.toNat ∧ c.toNat ≤ 70 then some (c.toNat - 55)
  else none

/-- Value of a most-significant-first hex digit list; `none` on any
non-digit or on the empty list. -/
def hexValue (cs : List Char) : Option Nat :=
  if cs = [] then none
  else
    cs.foldl
      (fun acc c =>
        match acc, hexDigit c with
        | some a, some d => some (16 * a + d)
        | _, _ => none)
      (some 0)

/-- Left-pad a fractional part to six digits. -/
def pad6 (n : Nat) : String :=
  let s := natToString n
  ⟨List.replicate (6 - s.length) '0'⟩ ++ s

/-- `parseFloat(ethers.formatUnits(rawBalance, decimals)).toFixed(6)`:
parse the `0x`-prefixed hex result, scale by `10 ^ decimals`, render with
six decimal places.  `formatUnits` throws on a malformed value. -/
def formatUnitsFixed6 (raw : String) (decimals : Nat) : Except String String :=
  match raw.data with
  | '0' :: 'x' :: ds =>
    match hexValue ds with
    | none => .error "invalid BigNumberish value"
    | some n =>
      let scaled := n * 10 ^ 6 / 10 ^ decimals
      .ok (natToString (scaled / 10 ^ 6) ++ "." ++ pad6 (scaled % 10 ^ 6))
  | _ => .error "invalid BigNumberish value"

/-- The hook's `BalanceResult` state. -/
structure BalanceResult where
  balance : Option String
  loading : Bool
  error : Option String
deriving DecidableEq, Repr

/-- Everything one `fetchBalance` call can observe from outside. -/
structure BalanceEnv where
  /-- `ethers.isAddress(walletAddress)`. -/
  addressValid : Bool
  /-- `!isNaN(targetDate.getTime())`. -/
  dateValid : Bool
  /-- The raw `timestamp` form input (used in the invalid-date message). -/
  dateInput : String
  /-- `Math.floor(targetDate.getTime() / 1000)`. -/
  targetTimestamp : Int
  /-- The chain's RPC oracle for the block search. -/
  oracle : Oracle
  /-- The `eth_call` balance round-trip, `fetch` + `.json()` combined;
  `rpcError` is `data.error?.message`, `result` is `data.result`. -/
  balanceFetch : Except String (Option String × String)

/-- `error.message || "Failed to fetch balance"`. -/
def balanceErrMsg (e : String) : String :=
  if e = "" then "Failed to fetch balance" else e

/-- The state the `catch` block of `fetchBalance` writes. -/
def balanceErrState (e : String) : BalanceResult :=
  ⟨none, false, some (balanceErrMsg e)⟩

/-- `fetchBalance({ asset, walletAddress, timestamp })` of
`useWalletBalance`: validation, block resolution, the balance RPC, and the
`catch` block that converts every thrown error into an error state.  The
source's `if (isNaN(blockNumber))` guard is unreachable (the resolver never
returns `NaN`) and has no model counterpart.  Returns the final hook state
and the updated `localStorage`. -/
def fetchBalance (env : BalanceEnv) (c : Cache) (blockchain : EvmBlockchain)
    (decimals : Nat) : BalanceResult × Cache :=
  if ¬ env.addressValid then (balanceErrState "Invalid Ethereum address", c)
  else if ¬ env.dateValid then (balanceErrState ("Invalid date: " ++ env.dateInput), c)
  else
    let out := findBlockByTimestamp env.oracle c blockchain env.targetTimestamp
    match out.res with
    | .error e => (balanceErrState e, out.cache)
    | .ok _blockNumber =>
      match env.balanceFetch with
      | .error e => (balanceErrState e, out.cache)
      | .ok data =>
        match data.1 with
        | some m => (balanceErrState ("RPC error: " ++ m), out.cache)
        | none =>
          match formatUnitsFixed6 data.2 decimals with
          | .error e => (balanceErrState e, out.cache)
          | .ok balance => (⟨some balance, false, none⟩, out.cache)

/-! # Lemma layer -/

/-! ## Decimal encode / `parseInt` round-trip -/

theorem toNat_digitChar (d : Nat) (h : d < 10) : (digitChar d).toNat = 48 + d := by
  interval_cases d <;> decide

theorem charDigit_digitChar (d : Nat) (h : d < 10) : charDigit (digitChar d) = some d := by
  interval_cases d <;> decide

theorem digitChar_ne_dash (d : Nat) (h : d < 10) : digitChar d ≠ '-' := by
  interval_cases d <;> decide

theorem takeDigits_map_digitChar (ds : List Nat) (h : ∀ d ∈ ds, d < 10) :
    takeDigits (ds.map digitChar) = ds := by
  induction ds with
  | nil => rfl
  | cons d ds ih =>
    have hd : d < 10 := h d (by simp)
    have hds : ∀ x ∈ ds, x < 10 := fun x hx => h x (by simp [hx])
    simp [takeDigits, charDigit_digitChar d hd, ih hds]

theorem decValue_reverse (L : List Nat) : decValue L.reverse = Nat.ofDigits 10 L := by
  induction L with
  | nil => simp [decValue, Nat.ofDigits]
  | cons d L ih =>
    have : decValue (L.reverse ++ [d]) = 10 * decValue L.reverse + d := by
      simp [decValue, List.foldl_append]
    simp only [List.reverse_cons, this, ih, Nat.ofDigits_cons]
    ring

theorem natToString_data (n : Nat) (h : n ≠ 0) :
    (natToString n).data = ((Nat.digits 10 n).reverse).map digitChar := by
  simp [natToString, h, List.map_reverse]

theorem digits_mem_lt (n d : Nat) (hd : d ∈ Nat.digits 10 n) : d < 10 :=
  Nat.digits_lt_base (by norm_num) hd

theorem digits_reverse_ne_nil (n : Nat) (h : n ≠ 0) : (Nat.digits 10 n).reverse ≠ [] := by
  simpa using (Nat.digits_ne_nil_iff_ne_zero).mpr h

theorem takeDigits_natToString (n : Nat) (h : n ≠ 0) :
    takeDigits ((natToString n).data) = (Nat.digits 10 n).reverse := by
  rw [natToString_data n h]
  exact takeDigits_map_digitChar _ (fun d hd => digits_mem_lt n d (List.mem_reverse.mp hd))

theorem decValue_digits_reverse (n : Nat) :
    decValue ((Nat.digits 10 n).reverse) = n := by
  rw [decValue_reverse, Nat.ofDigits_digits]

theorem parseIntDec_natToString (n : Nat) : parseIntDec (natToString n) = some (n : Int) := by
  by_cases h : n = 0
  · subst h; decide
  · have hdata := natToString_data n h
    have hne := digits_reverse_ne_nil n h
    rcases hrev : (Nat.digits 10 n).reverse with _ | ⟨d, ds⟩
    · exact absurd hrev hne
    · have hd10 : d < 10 := digits_mem_lt n d (by
        have : d ∈ (Nat.digits 10 n).reverse := by rw [hrev]; simp
        exact List.mem_reverse.mp this)
      have htake : takeDigits ((natToString n).data) = d :: ds := by
        rw [takeDigits_natToString n h, hrev]
      have hval : decValue (d :: ds) = n := by
        rw [← hrev, decValue_digits_reverse]
      unfold parseIntDec
      rw [hdata, hrev]
      simp only [List.map_cons]
      rw [if_neg (digitChar_ne_dash d hd10)]
      have htake2 : takeDigits (digitChar d :: List.map digitChar ds) = d :: ds := by
        have := htake
        rw [hdata, hrev] at this
        simpa using this
      rw [htake2]
      simp [hval]

theorem natToString_ne_empty (n : Nat) : natToString n ≠ "" := by
  by_cases h : n = 0
  · subst h; decide
  · have hdata := natToString_data n h
    intro hc
    have : (natToString n).data = [] := by simp [hc]
    rw [hdata] at this
    have := digits_reverse_ne_nil n h
    simp_all

theorem string_data_append (s t : String) : (s ++ t).data = s.data ++ t.data := by
  cases s; cases t; rfl

theorem parseIntDec_intToString (i : Int) : parseIntDec (intToString i) = some i := by
  by_cases h : i < 0
  · have hpos : i.natAbs ≠ 0 := by omega
    have hdata : (intToString i).data = '-' :: (natToString i.natAbs).data := by
      simp only [intToString, if_pos h]
      rw [string_data_append]
      rfl
    unfold parseIntDec
    rw [hdata]
    simp only [if_pos rfl, if_true]
    rw [takeDigits_natToString _ hpos]
    rw [if_neg (digits_reverse_ne_nil _ hpos)]
    rw [decValue_digits_reverse]
    simp only [Option.some.injEq]
    omega
  · have : intToString i = natToString i.toNat := by simp [intToString, h]
    rw [this, parseIntDec_natToString]
    simp only [Option.some.injEq]
    omega

theorem intToString_ne_empty (i : Int) : intToString i ≠ "" := by
  unfold intToString
  by_cases h : i < 0
  · simp only [if_pos h]
    intro hc
    have : ("-" ++ natToString i.natAbs).data = [] := by simp [hc]
    rw [string_data_append] at this
    simp at this
  · simp only [if_neg h]
    exact natToString_ne_empty _

/-! ## Unfolding lemmas for the binary-search loop -/

theorem searchLoop_exit (O : Oracle) (target low high best : Int) (h : ¬ low ≤ high) :
    searchLoop O target low high best = (.ok best, 0) := by
  rw [searchLoop]
  simp [h]

theorem searchLoop_err (O : Oracle) (target low high best : Int) (e : String)
    (h : low ≤ high) (hts : O.ts ((low + high) / 2) = .error e) :
    searchLoop O target low high best = (.error e, 1) := by
  rw [searchLoop]
  simp only [if_pos h, hts]

theorem searchLoop_le (O : Oracle) (target low high best : Int) (v : Int)
    (h : low ≤ high) (hts : O.ts ((low + high) / 2) = .ok v) (hcmp : v ≤ target) :
    searchLoop O target low high best =
      ((searchLoop O target ((low + high) / 2 + 1) high ((low + high) / 2)).1,
       (searchLoop O target ((low + high) / 2 + 1) high ((low + high) / 2)).2 + 1) := by
  rw [searchLoop]
  simp only [if_pos h, hts, if_pos hcmp]

theorem searchLoop_gt (O : Oracle) (target low high best : Int) (v : Int)
    (h : low ≤ high) (hts : O.ts ((low + high) / 2) = .ok v) (hcmp : ¬ v ≤ target) :
    searchLoop O target low high best =
      ((searchLoop O target low ((low + high) / 2 - 1) best).1,
       (searchLoop O target low ((low + high) / 2 - 1) best).2 + 1) := by
  rw [searchLoop]
  simp only [if_pos h, hts, if_neg hcmp]

/-! ## The loop invariant

At every loop state `(low, high, best)` reachable from the initial state
`(1, H, H)` the following hold: blocks strictly below `low` (if any beyond
block 0) have been found to be at or before the target, blocks strictly
above `high` (if any below `H + 1`) after it, and `best` is `H` while no
probe has succeeded yet and `low - 1` afterwards.  The loop returns `H`
when every block's timestamp exceeds the target, and the maximal
not-after-target block otherwise. -/

theorem searchLoop_invariant (O : Oracle) (f : Int → Int) (H target : Int)
    (hH : 1 ≤ H)
    (hts : ∀ b : Int, 1 ≤ b → b ≤ H → O.ts b = .ok (f b)) :
    ∀ m : Nat, ∀ low high best : Int, (high + 1 - low).toNat = m →
      1 ≤ low → high ≤ H → low ≤ high + 1 →
      (low = 1 ∨ f (low - 1) ≤ target) →
      (high = H ∨ target < f (high + 1)) →
      best = (if low = 1 then H else low - 1) →
      ∃ r : Int, (searchLoop O target low high best).1 = .ok r ∧ 1 ≤ r ∧ r ≤ H ∧
        ((f r ≤ target ∧ (r = H ∨ target < f (r + 1))) ∨ (target < f 1 ∧ r = H)) := by
  intro m
  induction m using Nat.strong_induction_on with
  | _ m ih =>
    intro low high best hm h1 h2 h3 h4 h5 h6
    by_cases hlh : low ≤ high
    · have hmlo : low ≤ (low + high) / 2 := by omega
      have hmhi : (low + high) / 2 ≤ high := by omega
      have htsmid : O.ts ((low + high) / 2) = .ok (f ((low + high) / 2)) :=
        hts _ (by omega) (by omega)
      by_cases hcmp : f ((low + high) / 2) ≤ target
      · rw [searchLoop_le O target low high best _ hlh htsmid hcmp]
        have hrec := ih ((high + 1 - ((low + high) / 2 + 1)).toNat) (by omega)
          ((low + high) / 2 + 1) high ((low + high) / 2) rfl (by omega) h2 (by omega)
          (Or.inr (by simpa using hcmp)) h5
          (by rw [if_neg (by omega)]; omega)
        obtain ⟨r, hr, hr1, hr2, hr3⟩ := hrec
        exact ⟨r, by simpa using hr, hr1, hr2, hr3⟩
      · rw [searchLoop_gt O target low high best _ hlh htsmid hcmp]
        have hrec := ih ((((low + high) / 2 - 1) + 1 - low).toNat) (by omega)
          low ((low + high) / 2 - 1) best rfl h1 (by omega) (by omega) h4
          (Or.inr (by simpa using hcmp)) h6
        obtain ⟨r, hr, hr1, hr2, hr3⟩ := hrec
        exact ⟨r, by simpa using hr, hr1, hr2, hr3⟩
    · rw [searchLoop_exit O target low high best hlh]
      refine ⟨best, rfl, ?_⟩
      have hexit : low = high + 1 := by omega
      by_cases hl1 : low = 1
      · have hbest : best = H := by rw [h6, if_pos hl1]
        have hhigh : high = 0 := by omega
        have htlt : target < f 1 := by
          rcases h5 with h5 | h5
          · omega
          · simpa [hhigh] using h5
        exact ⟨by omega, by omega, Or.inr ⟨htlt, hbest⟩⟩
      · have hbest : best = low - 1 := by rw [h6, if_neg hl1]
        have hfb : f best ≤ target := by
          rcases h4 with h4 | h4
          · exact absurd h4 hl1
          · rw [hbest]; exact h4
        have hb1 : 1 ≤ best := by omega
        have hb2 : best ≤ H := by omega
        refine ⟨hb1, hb2, Or.inl ⟨hfb, ?_⟩⟩
        rcases h5 with h5 | h5
        · exact Or.inl (by omega)
        · exact Or.inr (by rw [hbest]; simpa [hexit] using h5)

/-! ## The probe-count bound -/

theorem searchLoop_probes (O : Oracle) (target : Int) :
    ∀ m : Nat, ∀ low high best : Int, (high + 1 - low).toNat = m →
      (searchLoop O target low high best).2 ≤ Nat.log2 m + 1 := by
  intro m
  induction m using Nat.strong_induction_on with
  | _ m ih =>
    intro low high best hm
    by_cases hlh : low ≤ high
    · rcases hts : O.ts ((low + high) / 2) with e | v
      · rw [searchLoop_err O target low high best e hlh hts]
        simp
      · have hmlo : low ≤ (low + high) / 2 := by omega
        have hmhi : (low + high) / 2 ≤ high := by omega
        by_cases hcmp : v ≤ target
        · rw [searchLoop_le O target low high best v hlh hts hcmp]
          have hhalf : (high + 1 - ((low + high) / 2 + 1)).toNat ≤ m / 2 := by omega
          by_cases hz : (high + 1 - ((low + high) / 2 + 1)).toNat = 0
          · have : ¬ ((low + high) / 2 + 1 ≤ high) := by omega
            rw [searchLoop_exit O target _ high _ this]
            simp
          · have hrec := ih ((high + 1 - ((low + high) / 2 + 1)).toNat)
              (by omega) ((low + high) / 2 + 1) high ((low + high) / 2) rfl
            have hm2 : 2 ≤ m := by omega
            have hlog : Nat.log2 m = Nat.log2 (m / 2) + 1 := by
              rw [Nat.log2]
              simp [hm2]
            have hmono : Nat.log2 ((high + 1 - ((low + high) / 2 + 1)).toNat) ≤ Nat.log2 (m / 2) := by
              rw [Nat.log2_eq_log_two, Nat.log2_eq_log_two]
              exact Nat.log_mono_right hhalf
            simp only []
            omega
        · rw [searchLoop_gt O target low high best v hlh hts hcmp]
          have hhalf : (((low + high) / 2 - 1) + 1 - low).toNat ≤ m / 2 := by omega
          by_cases hz : (((low + high) / 2 - 1) + 1 - low).toNat = 0
          · have : ¬ (low ≤ (low + high) / 2 - 1) := by omega
            rw [searchLoop_exit O target low _ best this]
            simp
          · have hrec := ih ((((low + high) / 2 - 1) + 1 - low).toNat)
              (by omega) low ((low + high) / 2 - 1) best rfl
            have hm2 : 2 ≤ m := by omega
            have hlog : Nat.log2 m = Nat.log2 (m / 2) + 1 := by
              rw [Nat.log2]
              simp [hm2]
            have hmono : Nat.log2 ((((low + high) / 2 - 1) + 1 - low).toNat) ≤ Nat.log2 (m / 2) := by
              rw [Nat.log2_eq_log_two, Nat.log2_eq_log_two]
              exact Nat.log_mono_right hhalf
            simp only []
            omega
    · rw [searchLoop_exit O target low high best hlh]
      simp

/-! ## Cache-key separation between chains -/

theorem chainName_injective : ∀ b1 b2 : EvmBlockchain, chainName b1 = chainName b2 → b1 = b2 := by
  intro b1 b2
  cases b1 <;> cases b2 <;> decide

theorem chainName_dash_free : ∀ b : EvmBlockchain, ('-' : Char) ∉ (chainName b).data := by
  intro b
  cases b <;> decide

/-- Two hyphen-free segments followed by a hyphen-delimited tail can only
concatenate to the same character list segment-wise. -/
theorem dash_free_append_inj (xs : List Char) :
    ∀ ys zs ws : List Char, ('-' : Char) ∉ xs → ('-' : Char) ∉ ys →
      xs ++ '-' :: zs = ys ++ '-' :: ws → xs = ys ∧ zs = ws := by
  induction xs with
  | nil =>
    intro ys zs ws _ hy h
    cases ys with
    | nil => simpa using h
    | cons y ys =>
      simp only [List.nil_append, List.cons_append, List.cons.injEq] at h
      exact absurd (by simp [← h.1]) hy
  | cons x xs ih =>
    intro ys zs ws hx hy h
    cases ys with
    | nil =>
      simp only [List.cons_append, List.nil_append, List.cons.injEq] at h
      exact absurd (by simp [h.1]) hx
    | cons y ys =>
      simp only [List.cons_append, List.cons.injEq] at h
      have hrec := ih ys zs ws (fun hm => hx (by simp [hm])) (fun hm => hy (by simp [hm])) h.2
      exact ⟨by simp [h.1, hrec.1], hrec.2⟩

theorem blockCacheKey_data (b : EvmBlockchain) (t : Int) :
    (blockCacheKey b t).data =
      "block-".data ++ ((chainName b).data ++ '-' :: (intToString t).data) := by
  simp only [blockCacheKey, string_data_append, List.append_assoc]
  rfl

/-- The block cache key determines the chain: keys for different chains
never collide, whatever the target timestamp. -/
theorem blockCacheKey_chain_inj (b1 b2 : EvmBlockchain) (t : Int)
    (h : blockCacheKey b1 t = blockCacheKey b2 t) : b1 = b2 := by
  have hdata : (blockCacheKey b1 t).data = (blockCacheKey b2 t).data := by rw [h]
  rw [blockCacheKey_data, blockCacheKey_data] at hdata
  have htail := List.append_cancel_left hdata
  have hseg := dash_free_append_inj (chainName b1).data (chainName b2).data
    (intToString t).data (intToString t).data
    (chainName_dash_free b1) (chainName_dash_free b2) htail
  have : chainName b1 = chainName b2 := by
    cases hname : chainName b1
    cases hname2 : chainName b2
    simp_all
  exact chainName_injective b1 b2 this

/-! ## `findBlockByTimestamp`: path lemmas -/

theorem cachedBlock_set (c : Cache) (k : String) (b : Int) :
    cachedBlock (lsSetItem c k (intToString b)) k = some b := by
  simp [cachedBlock, lsGetItem, lsSetItem, List.lookup, intToString_ne_empty,
    parseIntDec_intToString]

theorem findBlockByTimestamp_hit (O : Oracle) (c : Cache) (bc : EvmBlockchain) (t : Int)
    (b : Int) (hhit : cachedBlock c (blockCacheKey bc t) = some b) :
    findBlockByTimestamp O c bc t = ⟨.ok b, c, 0, 0⟩ := by
  simp only [findBlockByTimestamp, hhit]

theorem findBlockByTimestamp_height_err (O : Oracle) (c : Cache) (bc : EvmBlockchain)
    (t : Int) (e : String)
    (hmiss : cachedBlock c (blockCacheKey bc t) = none) (hh : O.height = .error e) :
    findBlockByTimestamp O c bc t = ⟨.error e, c, 1, 0⟩ := by
  simp only [findBlockByTimestamp, hmiss, hh]

theorem findBlockByTimestamp_bad_height (O : Oracle) (c : Cache) (bc : EvmBlockchain)
    (t H : Int)
    (hmiss : cachedBlock c (blockCacheKey bc t) = none) (hh : O.height = .ok H)
    (hH : H ≤ 0) :
    findBlockByTimestamp O c bc t =
      ⟨.error ("Invalid current block number for " ++ chainName bc), c, 1, 0⟩ := by
  simp only [findBlockByTimestamp, hmiss, hh, if_pos hH]

theorem findBlockByTimestamp_search_err (O : Oracle) (c : Cache) (bc : EvmBlockchain)
    (t H : Int) (e : String)
    (hmiss : cachedBlock c (blockCacheKey bc t) = none) (hh : O.height = .ok H)
    (hH : ¬ H ≤ 0) (hs : (searchLoop O t 1 H H).1 = .error e) :
    findBlockByTimestamp O c bc t = ⟨.error e, c, 1, (searchLoop O t 1 H H).2⟩ := by
  simp only [findBlockByTimestamp, hmiss, hh, if_neg hH, hs]

theorem findBlockByTimestamp_search_ok (O : Oracle) (c : Cache) (bc : EvmBlockchain)
    (t H b : Int)
    (hmiss : cachedBlock c (blockCacheKey bc t) = none) (hh : O.height = .ok H)
    (hH : ¬ H ≤ 0) (hs : (searchLoop O t 1 H H).1 = .ok b) :
    findBlockByTimestamp O c bc t =
      ⟨.ok b, lsSetItem c (blockCacheKey bc t) (intToString b), 1, (searchLoop O t 1 H H).2⟩ := by
  simp only [findBlockByTimestamp, hmiss, hh, if_neg hH, hs]

/-! ## The resolver's result on a cache miss -/

/-- On a cache miss with a healthy oracle, the returned block is the one the
loop invariant describes: the maximal block at or before the target, or
`H` itself when even block 1 is after the target. -/
theorem findBlockByTimestamp_search_spec (O : Oracle) (c : Cache) (bc : EvmBlockchain)
    (f : Int → Int) (H t : Int)
    (hmiss : cachedBlock c (blockCacheKey bc t) = none)
    (hh : O.height = .ok H) (hH : 1 ≤ H)
    (hts : ∀ b : Int, 1 ≤ b → b ≤ H → O.ts b = .ok (f b)) :
    ∃ b : Int, (findBlockByTimestamp O c bc t).res = .ok b ∧ 1 ≤ b ∧ b ≤ H ∧
      ((f b ≤ t ∧ (b = H ∨ t < f (b + 1))) ∨ (t < f 1 ∧ b = H)) := by
  obtain ⟨r, hr, hr1, hr2, hr3⟩ :=
    searchLoop_invariant O f H t hH hts ((H + 1 - 1).toNat) 1 H H rfl
      (by omega) (by omega) (by omega) (Or.inl rfl) (Or.inl rfl) (by simp)
  refine ⟨r, ?_, hr1, hr2, hr3⟩
  rw [findBlockByTimestamp_search_ok O c bc t H r hmiss hh (by omega) hr]

/-- With non-decreasing timestamps, any block at or before the target is at
or below a block satisfying the loop's exit characterisation. -/
theorem characterisation_maximal (f : Int → Int) (H t b : Int)
    (hmono : ∀ a b : Int, 1 ≤ a → a ≤ b → b ≤ H → f a ≤ f b)
    (hb1 : 1 ≤ b) (hnext : b = H ∨ t < f (b + 1)) :
    ∀ b' : Int, 1 ≤ b' → b' ≤ H → f b' ≤ t → b' ≤ b := by
  intro b' h1 h2 h3
  by_contra hgt
  rcases hnext with h | h
  · omega
  · have : f (b + 1) ≤ f b' := hmono (b + 1) b' (by omega) (by omega) h2
    omega

/-- Combined characterisation: on a cache miss against a monotone oracle,
whenever the target is not before block 1's timestamp the resolver returns
the unique maximal block whose timestamp does not exceed the target. -/
theorem findBlockByTimestamp_maximal (O : Oracle) (c : Cache) (bc : EvmBlockchain)
    (f : Int → Int) (H t : Int)
    (hmiss : cachedBlock c (blockCacheKey bc t) = none)
    (hh : O.height = .ok H) (hH : 1 ≤ H)
    (hmono : ∀ a b : Int, 1 ≤ a → a ≤ b → b ≤ H → f a ≤ f b)
    (hts : ∀ b : Int, 1 ≤ b → b ≤ H → O.ts b = .ok (f b))
    (hgen : f 1 ≤ t) :
    ∃ b : Int, (findBlockByTimestamp O c bc t).res = .ok b ∧ 1 ≤ b ∧ b ≤ H ∧
      f b ≤ t ∧ (b = H ∨ t < f (b + 1)) ∧
      ∀ b' : Int, 1 ≤ b' → b' ≤ H → f b' ≤ t → b' ≤ b := by
  obtain ⟨b, hres, hb1, hb2, hchar⟩ :=
    findBlockByTimestamp_search_spec O c bc f H t hmiss hh hH hts
  rcases hchar with ⟨hfb, hnext⟩ | ⟨hpre, _⟩
  · exact ⟨b, hres, hb1, hb2, hfb, hnext,
      characterisation_maximal f H t b hmono hb1 hnext⟩
  · omega

/-- A three-block toy chain: the current height is 3 and block `b` has
timestamp `10 * b` (so timestamps are 10, 20, 30). -/
def toyOracle : Oracle := ⟨.ok 3, fun b => .ok (10 * b)⟩

/-- **C1** (corrected): for a target timestamp at or after block 1's
timestamp, on a cache miss the resolver returns a block `b` with
`1 ≤ b ≤ currentHeight`, `timestampOf b ≤ target`, and either
`b = currentHeight` or `timestampOf (b+1) > target`; `b` is maximal among
blocks whose timestamp does not exceed the target.  (The unconditional
claim is refuted by `claim1_counterexample`: for a pre-genesis target the
returned block's timestamp exceeds the target.) -/
theorem claim1_block_resolver_maximal (O : Oracle) (c : Cache) (bc : EvmBlockchain)
    (f : Int → Int) (H t : Int)
    (hmiss : cachedBlock c (blockCacheKey bc t) = none)
    (hh : O.height = .ok H) (hH : 1 ≤ H)
    (hmono : ∀ a b : Int, 1 ≤ a → a ≤ b → b ≤ H → f a ≤ f b)
    (hts : ∀ b : Int, 1 ≤ b → b ≤ H → O.ts b = .ok (f b))
    (hgen : f 1 ≤ t) :
    ∃ b : Int, (findBlockByTimestamp O c bc t).res = .ok b ∧ 1 ≤ b ∧ b ≤ H ∧
      f b ≤ t ∧ (b = H ∨ t < f (b + 1)) ∧
      ∀ b' : Int, 1 ≤ b' → b' ≤ H → f b' ≤ t → b' ≤ b :=
  findBlockByTimestamp_maximal O c bc f H t hmiss hh hH hmono hts hgen

theorem claim1_witness :
    ∃ b : Int, (findBlockByTimestamp toyOracle [] .ETH 25).res = .ok b ∧ 1 ≤ b ∧ b ≤ 3 ∧
      10 * b ≤ 25 ∧ (b = 3 ∨ 25 < 10 * (b + 1)) ∧
      ∀ b' : Int, 1 ≤ b' → b' ≤ 3 → 10 * b' ≤ 25 → b' ≤ b :=
  claim1_block_resolver_maximal toyOracle [] .ETH (fun b => 10 * b) 3 25 rfl rfl
    (by norm_num) (fun a b _ hab _ => by dsimp only; omega) (fun b _ _ => rfl) (by norm_num)

/-- **C1, counterexample**: with current height 3 and timestamps
10/20/30, the target 5 precedes every block, yet the resolver returns
block 3, whose timestamp 30 exceeds the target — the claimed
`timestampOf b ≤ target` fails. -/
theorem claim1_counterexample :
    (findBlockByTimestamp toyOracle [] .ETH 5).res = .ok 3 ∧
      toyOracle.ts 3 = .ok 30 ∧ ¬ ((30 : Int) ≤ 5) := by
  refine ⟨?_, rfl, by norm_num⟩
  simp [findBlockByTimestamp, cachedBlock, lsGetItem, searchLoop, toyOracle]

/-- **C2** (corrected): for a target timestamp strictly before block 1's
timestamp, the resolver does not fail — but it returns the *current
height* (`bestBlock` is initialised to `high` and never reassigned when
every probe exceeds the target), not block 1 as claimed. -/
theorem claim2_pre_genesis_returns_height (O : Oracle) (c : Cache) (bc : EvmBlockchain)
    (f : Int → Int) (H t : Int)
    (hmiss : cachedBlock c (blockCacheKey bc t) = none)
    (hh : O.height = .ok H) (hH : 1 ≤ H)
    (hmono : ∀ a b : Int, 1 ≤ a → a ≤ b → b ≤ H → f a ≤ f b)
    (hts : ∀ b : Int, 1 ≤ b → b ≤ H → O.ts b = .ok (f b))
    (hpre : t < f 1) :
    (findBlockByTimestamp O c bc t).res = .ok H := by
  obtain ⟨b, hres, hb1, hb2, hchar⟩ :=
    findBlockByTimestamp_search_spec O c bc f H t hmiss hh hH hts
  rcases hchar with ⟨hfb, _⟩ | ⟨_, hbH⟩
  · have : f 1 ≤ f b := hmono 1 b (by omega) hb1 hb2
    omega
  · rw [hres, hbH]

theorem claim2_witness :
    (findBlockByTimestamp toyOracle [] .ETH 7).res = .ok 3 :=
  claim2_pre_genesis_returns_height toyOracle [] .ETH (fun b => 10 * b) 3 7 rfl rfl
    (by norm_num) (fun a b _ hab _ => by dsimp only; omega) (fun b _ _ => rfl) (by norm_num)

/-- **C2, counterexample**: target 7 precedes block 1's timestamp 10, yet
the resolver returns block 3 (the current height), not block 1 as the
claim states. -/
theorem claim2_counterexample :
    toyOracle.ts 1 = .ok 10 ∧ (7 : Int) < 10 ∧
      (findBlockByTimestamp toyOracle [] .ETH 7).res = .ok 3 ∧ (3 : Int) ≠ 1 := by
  refine ⟨rfl, by norm_num, ?_, by norm_num⟩
  simp [findBlockByTimestamp, cachedBlock, lsGetItem, searchLoop, toyOracle]

/-- **C3** (corrected): for a fixed healthy oracle and cache misses on both
targets, the resolver is monotone in the target timestamp *provided both
targets are at or after block 1's timestamp*.  (Unrestricted monotonicity
is refuted by `claim3_counterexample`: a pre-genesis target yields the
current height, which a later target can undershoot.) -/
theorem claim3_block_resolver_monotone (O : Oracle) (c : Cache) (bc : EvmBlockchain)
    (f : Int → Int) (H t1 t2 b1 b2 : Int)
    (hmiss1 : cachedBlock c (blockCacheKey bc t1) = none)
    (hmiss2 : cachedBlock c (blockCacheKey bc t2) = none)
    (hh : O.height = .ok H) (hH : 1 ≤ H)
    (hmono : ∀ a b : Int, 1 ≤ a → a ≤ b → b ≤ H → f a ≤ f b)
    (hts : ∀ b : Int, 1 ≤ b → b ≤ H → O.ts b = .ok (f b))
    (hgen : f 1 ≤ t1) (hlt : t1 < t2)
    (h1 : (findBlockByTimestamp O c bc t1).res = .ok b1)
    (h2 : (findBlockByTimestamp O c bc t2).res = .ok b2) : b1 ≤ b2 := by
  obtain ⟨a1, ha1, ha11, ha12, hfa1, _, _⟩ :=
    findBlockByTimestamp_maximal O c bc f H t1 hmiss1 hh hH hmono hts hgen
  obtain ⟨a2, ha2, _, _, _, _, hmax2⟩ :=
    findBlockByTimestamp_maximal O c bc f H t2 hmiss2 hh hH hmono hts (by omega)
  rw [h1] at ha1
  rw [h2] at ha2
  have e1 : a1 = b1 := by simpa using ha1.symm
  have e2 : a2 = b2 := by simpa using ha2.symm
  subst e1
  subst e2
  exact hmax2 a1 ha11 ha12 (by omega)

theorem claim3_witness :
    (findBlockByTimestamp toyOracle [] .ETH 12).res = .ok 1 ∧
      (findBlockByTimestamp toyOracle [] .ETH 25).res = .ok 2 ∧ (1 : Int) ≤ 2 := by
  have h1 : (findBlockByTimestamp toyOracle [] .ETH 12).res = .ok 1 := by
    simp [findBlockByTimestamp, cachedBlock, lsGetItem, searchLoop, toyOracle]
  have h2 : (findBlockByTimestamp toyOracle [] .ETH 25).res = .ok 2 := by
    simp [findBlockByTimestamp, cachedBlock, lsGetItem, searchLoop, toyOracle]
  exact ⟨h1, h2, claim3_block_resolver_monotone toyOracle [] .ETH (fun b => 10 * b)
    3 12 25 1 2 rfl rfl rfl (by norm_num) (fun a b _ hab _ => by dsimp only; omega)
    (fun b _ _ => rfl) (by norm_num) (by norm_num) h1 h2⟩

/-- **C3, counterexample**: `t1 = 5 < 15 = t2`, yet the resolver returns
block 3 for `t1` (pre-genesis clamp to the current height) and block 1 for
`t2` — monotonicity fails. -/
theorem claim3_counterexample :
    (5 : Int) < 15 ∧
      (findBlockByTimestamp toyOracle [] .ETH 5).res = .ok 3 ∧
      (findBlockByTimestamp toyOracle [] .ETH 15).res = .ok 1 ∧ ¬ ((3 : Int) ≤ 1) := by
  refine ⟨by norm_num, ?_, ?_, by norm_num⟩ <;>
    simp [findBlockByTimestamp, cachedBlock, lsGetItem, searchLoop, toyOracle]

/-- **C4** (confirmed): if a call of the block resolver returns a block
number, a second call with identical inputs against the cache the first
call left behind is answered from the cache: it issues no
`getCurrentBlockNumber` call and no timestamp probe, leaves the cache
unchanged, and returns the identical value — the cached number survives the
round-trip through `toString` and `parseInt(·, 10)`. -/
theorem claim4_second_call_cached (O : Oracle) (c : Cache) (bc : EvmBlockchain)
    (t b : Int) (h : (findBlockByTimestamp O c bc t).res = .ok b) :
    (findBlockByTimestamp O (findBlockByTimestamp O c bc t).cache bc t).res = .ok b ∧
      (findBlockByTimestamp O (findBlockByTimestamp O c bc t).cache bc t).heightCalls = 0 ∧
      (findBlockByTimestamp O (findBlockByTimestamp O c bc t).cache bc t).probes = 0 ∧
      (findBlockByTimestamp O (findBlockByTimestamp O c bc t).cache bc t).cache =
        (findBlockByTimestamp O c bc t).cache := by
  rcases hcb : cachedBlock c (blockCacheKey bc t) with _ | v
  · rcases hh : O.height with e | H
    · rw [findBlockByTimestamp_height_err O c bc t e hcb hh] at h
      exact absurd h (by simp)
    · by_cases hH : H ≤ 0
      · rw [findBlockByTimestamp_bad_height O c bc t H hcb hh hH] at h
        exact absurd h (by simp)
      · rcases hs : (searchLoop O t 1 H H).1 with e | best
        · rw [findBlockByTimestamp_search_err O c bc t H e hcb hh hH hs] at h
          exact absurd h (by simp)
        · have hfst := findBlockByTimestamp_search_ok O c bc t H best hcb hh hH hs
          rw [hfst] at h ⊢
          have hb : best = b := by simpa using h
          subst hb
          have hhit : cachedBlock (lsSetItem c (blockCacheKey bc t) (intToString best))
              (blockCacheKey bc t) = some best := cachedBlock_set c _ best
          rw [findBlockByTimestamp_hit O _ bc t best hhit]
          exact ⟨rfl, rfl, rfl, rfl⟩
  · have hfst := findBlockByTimestamp_hit O c bc t v hcb
    rw [hfst] at h ⊢
    have hb : v = b := by simpa using h
    subst hb
    rw [findBlockByTimestamp_hit O c bc t v hcb]
    exact ⟨rfl, rfl, rfl, rfl⟩

theorem claim4_witness :
    (findBlockByTimestamp toyOracle (findBlockByTimestamp toyOracle [] .ETH 25).cache
        .ETH 25).res = .ok 2 ∧
      (findBlockByTimestamp toyOracle (findBlockByTimestamp toyOracle [] .ETH 25).cache
        .ETH 25).heightCalls = 0 ∧
      (findBlockByTimestamp toyOracle (findBlockByTimestamp toyOracle [] .ETH 25).cache
        .ETH 25).probes = 0 ∧
      (findBlockByTimestamp toyOracle (findBlockByTimestamp toyOracle [] .ETH 25).cache
        .ETH 25).cache = (findBlockByTimestamp toyOracle [] .ETH 25).cache :=
  claim4_second_call_cached toyOracle [] .ETH 25 2
    (by simp [findBlockByTimestamp, cachedBlock, lsGetItem, searchLoop, toyOracle])

/-- **C5** (confirmed): the block cache key is built from both the chain
and the target timestamp; requests with the same timestamp on different
chains always use different keys, so a block resolved for one chain is
never served as a cache hit for another. -/
theorem claim5_cache_keys_chain_disjoint (b1 b2 : EvmBlockchain) (t : Int)
    (h : b1 ≠ b2) : blockCacheKey b1 t ≠ blockCacheKey b2 t :=
  fun he => h (blockCacheKey_chain_inj b1 b2 t he)

theorem claim5_witness :
    EvmBlockchain.ETH ≠ EvmBlockchain.POLYGON ∧
      blockCacheKey .ETH 1700000000 ≠ blockCacheKey .POLYGON 1700000000 :=
  ⟨by decide, claim5_cache_keys_chain_disjoint .ETH .POLYGON 1700000000 (by decide)⟩

/-- **C6** (confirmed): on a cache miss, if `getCurrentBlockNumber` reports
a height below 1 the resolver throws the invalid-range error
(`Invalid current block number for ...`), issues no timestamp probe, and
writes nothing to the cache. -/
theorem claim6_invalid_height_fails (O : Oracle) (c : Cache) (bc : EvmBlockchain)
    (t H : Int)
    (hmiss : cachedBlock c (blockCacheKey bc t) = none)
    (hh : O.height = .ok H) (hH : H < 1) :
    (findBlockByTimestamp O c bc t).res =
        .error ("Invalid current block number for " ++ chainName bc) ∧
      (findBlockByTimestamp O c bc t).probes = 0 ∧
      (findBlockByTimestamp O c bc t).cache = c := by
  rw [findBlockByTimestamp_bad_height O c bc t H hmiss hh (by omega)]
  exact ⟨rfl, rfl, rfl⟩

/-- A stalled chain endpoint reporting height 0. -/
def stalledOracle : Oracle := ⟨.ok 0, fun b => .ok b⟩

theorem claim6_witness :
    (findBlockByTimestamp stalledOracle [] .ETH 100).res =
        .error ("Invalid current block number for " ++ chainName .ETH) ∧
      (findBlockByTimestamp stalledOracle [] .ETH 100).probes = 0 ∧
      (findBlockByTimestamp stalledOracle [] .ETH 100).cache = [] :=
  claim6_invalid_height_fails stalledOracle [] .ETH 100 0 rfl rfl (by norm_num)

/-- **C9** (confirmed): the binary search always terminates (the loop body
is a well-founded recursion on the interval width) and, on a cache miss
with current height `H ≥ 1`, the resolver issues at most
`⌊log₂ H⌋ + 1` timestamp probes. -/
theorem claim9_probe_bound (O : Oracle) (c : Cache) (bc : EvmBlockchain) (t H : Int)
    (hmiss : cachedBlock c (blockCacheKey bc t) = none)
    (hh : O.height = .ok H) (hH : 1 ≤ H) :
    (findBlockByTimestamp O c bc t).probes ≤ Nat.log2 H.toNat + 1 := by
  have hb := searchLoop_probes O t ((H + 1 - 1).toNat) 1 H H rfl
  have he : (H + 1 - 1).toNat = H.toNat := by omega
  rw [he] at hb
  rcases hs : (searchLoop O t 1 H H).1 with e | best
  · rw [findBlockByTimestamp_search_err O c bc t H e hmiss hh (by omega) hs]
    exact hb
  · rw [findBlockByTimestamp_search_ok O c bc t H best hmiss hh (by omega) hs]
    exact hb

theorem claim9_witness :
    (findBlockByTimestamp toyOracle [] .ETH 25).probes ≤ Nat.log2 (3 : Int).toNat + 1 :=
  claim9_probe_bound toyOracle [] .ETH 25 3 rfl rfl (by norm_num)

/-! ## Price-resolver claims -/

theorem balanceErrMsg_ne_empty (e : String) : balanceErrMsg e ≠ "" := by
  unfold balanceErrMsg
  split
  · decide
  · assumption

/-- Every `fetchPrice` outcome is either the `catch` block's
record-then-rethrow or a success with the quote in the state. -/
theorem fetchPrice_shape (env : PriceEnv) (c : PriceCache) (ca : String)
    (bc : EvmBlockchain) (fd : String) :
    (∃ e c', fetchPrice env c ca bc fd = priceThrow c' e) ∨
    (∃ p, (fetchPrice env c ca bc fd).res = .ok p ∧
      (fetchPrice env c ca bc fd).state = ⟨some p, false, none⟩) := by
  simp only [fetchPrice]
  repeat' split
  all_goals first
    | exact Or.inl ⟨_, _, rfl⟩
    | exact Or.inr ⟨_, rfl, rfl⟩

/-- Every `fetchBalance` outcome is a success state or the `catch` block's
error state. -/
theorem fetchBalance_shape (env : BalanceEnv) (c : Cache) (bc : EvmBlockchain)
    (d : Nat) :
    (∃ b, (fetchBalance env c bc d).1 = ⟨some b, false, none⟩) ∨
    (∃ e, (fetchBalance env c bc d).1 = balanceErrState e) := by
  simp only [fetchBalance]
  repeat' split
  all_goals first
    | exact Or.inr ⟨_, rfl⟩
    | exact Or.inl ⟨_, rfl⟩

/-- **C7** (corrected): when the exact-date history request comes back with
a non-success status (the source's only "date unavailable" signal that
falls through), `fetchPrice` queries the current-price endpoint, returns
its quote, and caches it under the historical key
`` `price-${contractAddress}-${formattedDate}` ``.  (The claim as stated —
a *delivered* history response carrying no historical price data falls
through — is refuted by `claim7_counterexample`: an `ok` response without
`market_data.current_price` throws instead.) -/
theorem claim7_current_price_fallback (env : PriceEnv) (c : PriceCache)
    (ca : String) (bc : EvmBlockchain) (fd p : String)
    (hr : HttpResp CgHistoryBody) (cr : HttpResp CgCurrentBody)
    (body : CgCurrentBody) (td : CgPriceFields)
    (hnotfps : ¬ (toLowerCase ca = fpsAddress ∧ chainName bc = "Ethereum"))
    (hplat : platformMap (chainName bc) = some p)
    (hmiss : pcGet c ("price-" ++ ca ++ "-" ++ fd) = none)
    (hhist : env.historyFetch = .ok hr) (hok : hr.ok = false)
    (hcur : env.currentFetch = .ok cr) (hcok : cr.ok = true)
    (hjson : cr.json = .ok body) (htd : body.tokenData = some td) :
    (fetchPrice env c ca bc fd).res = .ok ⟨td.usd.getD 0, td.eur.getD 0, td.chf.getD 0⟩ ∧
      (fetchPrice env c ca bc fd).cache =
        pcSet c ("price-" ++ ca ++ "-" ++ fd) ⟨td.usd.getD 0, td.eur.getD 0, td.chf.getD 0⟩ ∧
      (fetchPrice env c ca bc fd).state.error = none := by
  simp only [fetchPrice, if_neg hnotfps, hplat, hmiss, hhist, hok, hcur, hcok, hjson, htd,
    Bool.not_false, Bool.not_true, if_true, if_false]
  exact ⟨rfl, rfl, rfl⟩

/-- A history endpoint answering 404 while the current-price endpoint has
a live quote. -/
def claim7Env : PriceEnv :=
  ⟨.error "unused", .error "unused", .ok ⟨false, .error "no body"⟩,
    .ok ⟨true, .ok ⟨some ⟨some 2, some (9 / 5), some (7 / 4)⟩⟩⟩⟩

theorem claim7_witness :
    (fetchPrice claim7Env [] "0xabc" .ETH "15-01-2024").res = .ok ⟨2, 9 / 5, 7 / 4⟩ ∧
      (fetchPrice claim7Env [] "0xabc" .ETH "15-01-2024").cache =
        pcSet [] ("price-" ++ "0xabc" ++ "-" ++ "15-01-2024") ⟨2, 9 / 5, 7 / 4⟩ ∧
      (fetchPrice claim7Env [] "0xabc" .ETH "15-01-2024").state.error = none :=
  claim7_current_price_fallback claim7Env [] "0xabc" .ETH "15-01-2024" "ethereum"
    ⟨false, .error "no body"⟩ ⟨true, .ok ⟨some ⟨some 2, some (9 / 5), some (7 / 4)⟩⟩⟩
    ⟨some ⟨some 2, some (9 / 5), some (7 / 4)⟩⟩ ⟨some 2, some (9 / 5), some (7 / 4)⟩
    (by decide) rfl rfl rfl rfl rfl rfl rfl rfl

/-- A history endpoint that delivers an `ok` response whose body carries no
`market_data.current_price`, while the current-price endpoint has a live
quote the claimed fallback would use. -/
def claim7CtrEnv : PriceEnv :=
  ⟨.error "unused", .error "unused", .ok ⟨true, .ok ⟨none⟩⟩,
    .ok ⟨true, .ok ⟨some ⟨some 1, some 1, some 1⟩⟩⟩⟩

/-- **C7, counterexample**: the history source is reachable and delivers a
response without historical price data, yet `fetchPrice` throws
`Historical price data not available` instead of returning the
current-price tier's value. -/
theorem claim7_counterexample :
    claim7CtrEnv.historyFetch = .ok ⟨true, .ok ⟨none⟩⟩ ∧
      (fetchPrice claim7CtrEnv [] "0xabc" .ETH "15-01-2024").res =
        .error "Historical price data not available" ∧
      (fetchPrice claim7CtrEnv [] "0xabc" .ETH "15-01-2024").cache = [] :=
  ⟨rfl, rfl, rfl⟩

/-- **C8** (corrected): on a cache miss for the FPS special case, the
hard-coded fallback rates (CHF→USD 1.10, CHF→EUR 1.03) are used when the
on-chain `price()` read *succeeds* and the forex fetch comes back
non-`ok`; the call then returns a `PriceQuote`, not an error.  (The claim
as stated — a *throwing* oracle read still yields a quote — is refuted by
`claim8_counterexample`: the thrown error is recorded and re-thrown.) -/
theorem claim8_fallback_rates (env : PriceEnv) (c : PriceCache) (fd : String)
    (raw : Nat) (fr : HttpResp ForexBody)
    (hmiss : pcGet c ("price-fps-" ++ fd) = none)
    (hfps : env.fpsPriceRaw = .ok raw)
    (hforex : env.forexFetch = .ok fr) (hfok : fr.ok = false) :
    (fetchPrice env c fpsAddress .ETH fd).res =
        .ok ⟨(raw : ℚ) / 10 ^ 18 * (11 / 10), (raw : ℚ) / 10 ^ 18 * (103 / 100),
          (raw : ℚ) / 10 ^ 18⟩ ∧
      (fetchPrice env c fpsAddress .ETH fd).state.error = none := by
  have hfpscond : toLowerCase fpsAddress = fpsAddress ∧ chainName .ETH = "Ethereum" := by
    constructor <;> rfl
  simp only [fetchPrice, if_pos hfpscond, hmiss, hfps, hforex, hfok, if_false,
    Bool.false_eq_true]
  exact ⟨trivial, trivial⟩

/-- An FPS environment whose oracle read succeeds (price() = 2 · 10¹⁸, i.e.
2 CHF) while the forex service answers with a failure status. -/
def claim8Env : PriceEnv :=
  ⟨.ok (2 * 10 ^ 18), .ok ⟨false, .error "503"⟩, .error "unused", .error "unused"⟩

theorem claim8_witness :
    (fetchPrice claim8Env [] fpsAddress .ETH "15-01-2024").res =
        .ok ⟨((2 * 10 ^ 18 : Nat) : ℚ) / 10 ^ 18 * (11 / 10),
          ((2 * 10 ^ 18 : Nat) : ℚ) / 10 ^ 18 * (103 / 100),
          ((2 * 10 ^ 18 : Nat) : ℚ) / 10 ^ 18⟩ ∧
      (fetchPrice claim8Env [] fpsAddress .ETH "15-01-2024").state.error = none :=
  claim8_fallback_rates claim8Env [] "15-01-2024" (2 * 10 ^ 18) ⟨false, .error "503"⟩
    rfl rfl rfl rfl

/-- An FPS environment whose on-chain oracle read throws and whose forex
fetch would also fail. -/
def claim8CtrEnv : PriceEnv :=
  ⟨.error "FPS price() reverted", .ok ⟨false, .error "503"⟩, .error "unused", .error "unused"⟩

/-- **C8, counterexample**: with the oracle `price()` read throwing and the
forex fetch failing, `fetchPrice` does not return a fallback-rate
`PriceQuote`: it records the error and re-throws it. -/
theorem claim8_counterexample :
    (fetchPrice claim8CtrEnv [] fpsAddress .ETH "15-01-2024").res =
        .error "FPS price() reverted" ∧
      (fetchPrice claim8CtrEnv [] fpsAddress .ETH "15-01-2024").state =
        ⟨none, false, some "FPS price() reverted"⟩ :=
  ⟨rfl, rfl⟩

/-! ## Error containment of `fetchBalance` vs `fetchPrice` -/

/-- **C10** (confirmed): `fetchBalance` never propagates an exception —
whatever the validation and RPC outcomes, it resolves to a state with
`loading = false` that is either a success (`balance` set, no error) or
exactly `{ balance: null, loading: false, error: non-empty message }`.
`fetchPrice`, by contrast, re-throws after recording: whenever its promise
rejects with `e`, its state holds that same recorded error message. -/
theorem claim10_fetchBalance_never_throws (env : BalanceEnv) (c : Cache)
    (bc : EvmBlockchain) (d : Nat) (penv : PriceEnv) (pc : PriceCache)
    (ca : String) (pbc : EvmBlockchain) (fd : String) (e : String)
    (he : (fetchPrice penv pc ca pbc fd).res = .error e) :
    ((fetchBalance env c bc d).1.loading = false ∧
      ((∃ b, (fetchBalance env c bc d).1 = ⟨some b, false, none⟩) ∨
        (∃ m, m ≠ "" ∧ (fetchBalance env c bc d).1 = ⟨none, false, some m⟩))) ∧
      (fetchPrice penv pc ca pbc fd).state = ⟨none, false, some (priceErrMsg e)⟩ := by
  constructor
  · rcases fetchBalance_shape env c bc d with ⟨b, hb⟩ | ⟨e0, he0⟩
    · rw [hb]
      exact ⟨rfl, Or.inl ⟨b, rfl⟩⟩
    · rw [he0]
      exact ⟨rfl, Or.inr ⟨balanceErrMsg e0, balanceErrMsg_ne_empty e0, rfl⟩⟩
  · rcases fetchPrice_shape penv pc ca pbc fd with ⟨e0, c', hthrow⟩ | ⟨p, hok, _⟩
    · rw [hthrow] at he ⊢
      have : e0 = e := by simpa [priceThrow] using he
      subst this
      rfl
    · rw [hok] at he
      exact absurd he (by simp)

theorem claim10_witness :
    ((fetchBalance ⟨false, true, "2024-01-15", 1700000000, toyOracle, .error "down"⟩
          [] .ETH 18).1.loading = false ∧
      ((∃ b, (fetchBalance ⟨false, true, "2024-01-15", 1700000000, toyOracle, .error "down"⟩
          [] .ETH 18).1 = ⟨some b, false, none⟩) ∨
        (∃ m, m ≠ "" ∧ (fetchBalance ⟨false, true, "2024-01-15", 1700000000, toyOracle,
          .error "down"⟩ [] .ETH 18).1 = ⟨none, false, some m⟩))) ∧
      (fetchPrice claim8CtrEnv [] fpsAddress .ETH "15-01-2024").state =
        ⟨none, false, some (priceErrMsg "FPS price() reverted")⟩ :=
  claim10_fetchBalance_never_throws ⟨false, true, "2024-01-15", 1700000000, toyOracle,
    .error "down"⟩ [] .ETH 18 claim8CtrEnv [] fpsAddress .ETH "15-01-2024"
    "FPS price() reverted" rfl
